import Mathlib

/-!
Verification of the aggregation / variation / ranking engine and the
rule-based query responder of the chatbot-finanzas repository
(src/app.py and src/core/analisis_proyecto.py).

Modelling conventions.
Numeric cells of a pandas DataFrame are modelled as values of type
"Option Rat": "none" stands for a missing value (NaN), "some q" for the
rational q.  Column sums use the pandas default skipna semantics (missing
values are excluded; an all-missing group sums to 0).  The expression
"x / y.replace(0, nan)" becomes a division that yields none when the
divisor is zero or missing.  "pct_change" is modelled with no forward
filling of missing values (fill_method=None, the current pandas default;
the old padding default was deprecated and removed), followed by the
source's replace of +-infinity with NaN: a change computed against a
missing or zero predecessor, or at a missing current value, is none.
-/

/-- Cell value of a numeric DataFrame column: none models NaN. -/
abbrev Val := Option ℚ

/-- Plain sum of rationals (right fold; a singleton sums to itself so that
concrete sums reduce in the kernel). -/
def sumQ : List ℚ → ℚ
  | [] => 0
  | [x] => x
  | x :: xs => x + sumQ xs

/-- Sum of a numeric column with pandas skipna semantics: missing values
are excluded and an all-missing list sums to 0. -/
def ssum (l : List Val) : ℚ := sumQ (l.filterMap id)

/-- Division "a / b.replace(0, nan)" for already-summed (hence present)
operands: none whenever the divisor is zero, as in
"totales[\x22L14\x22] / totales[\x22VOL\x22].replace(0, np.nan)". -/
def sdiv (a b : ℚ) : Val := if b = 0 then none else some (a / b)

/-- Row-level "df[\x22L14\x22] / df[\x22VOL\x22].replace(0, np.nan)" from
cargar_datos: none when either operand is missing or the divisor is zero
(0 is first replaced by NaN, and division by NaN or of NaN is NaN). -/
def costoUnitarioCell (a b : Val) : Val :=
  match a, b with
  | some x, some y => if y = 0 then none else some (x / y)
  | _, _ => none

/-- One step of "series.pct_change() * 100" followed by
"replace([inf, -inf], nan)": given predecessor and current cell, the
percentage change, where a missing predecessor or current value gives NaN,
and a zero predecessor gives +-infinity (current nonzero) or NaN (current
zero), all of which end up as none after the replace. -/
def pctChange (prev cur : Val) : Val :=
  match prev, cur with
  | some p, some c => if p = 0 then none else some ((c - p) / p * 100)
  | _, _ => none

/-- A canonical financial record (one DataFrame row) with the columns the
core uses: PERIODO, IDH, MARCA, L14, VOL. -/
structure Rec where
  periodo : String
  idh : String
  marca : String
  l14 : Val
  vol : Val
deriving DecidableEq, Repr, Inhabited

/-- The dedup key of a record: the (PERIODO, IDH) pair. -/
def Rec.key (r : Rec) : String × String := (r.periodo, r.idh)

/-- Embedding of "df.drop_duplicates(subset=[\x22PERIODO\x22, \x22IDH\x22],
keep=\x22last\x22)": a row is kept iff no later row has the same key; the
kept rows stay in their original relative order. -/
def dropDupKeepLast : List Rec → List Rec
  | [] => []
  | r :: rs =>
    if rs.any (fun s => s.key = r.key) then dropDupKeepLast rs
    else r :: dropDupKeepLast rs

/-- Embedding of the module-level merge of app.py:
"pd.concat([df_base, df_mes], ignore_index=True)" followed by
"drop_duplicates(subset=[\x22PERIODO\x22, \x22IDH\x22], keep=\x22last\x22)". -/
def mergeDedup (hist inc : List Rec) : List Rec :=
  dropDupKeepLast (hist ++ inc)

/-- First row of a table with the given key, if any. -/
def findRow (l : List Rec) (k : String × String) : Option Rec :=
  l.find? (fun r => r.key = k)

/-- Last row of a table with the given key, if any (the row that
keep=\x22last\x22 retains for that key). -/
def lookupLast (l : List Rec) (k : String × String) : Option Rec :=
  findRow l.reverse k

/-- Key set membership helper: does some row of the table carry key k. -/
def hasKey (l : List Rec) (k : String × String) : Bool :=
  l.any (fun r => r.key = k)

-- Basic facts about dropDupKeepLast ------------------------------------

theorem dropDupKeepLast_sublist (l : List Rec) :
    (dropDupKeepLast l).Sublist l := by
  induction l with
  | nil => simp [dropDupKeepLast]
  | cons r rs ih =>
    cases h : rs.any (fun s => s.key = r.key) with
    | true =>
      simp only [dropDupKeepLast, h]
      exact ih.cons r
    | false =>
      simp only [dropDupKeepLast, h, Bool.false_eq_true, if_false]
      exact ih.cons₂ r

theorem mem_of_mem_dropDupKeepLast {l : List Rec} {r : Rec}
    (h : r ∈ dropDupKeepLast l) : r ∈ l :=
  (dropDupKeepLast_sublist l).mem h

theorem dropDupKeepLast_nodupKeys (l : List Rec) :
    (dropDupKeepLast l).Pairwise (fun a b => a.key ≠ b.key) := by
  induction l with
  | nil => simp [dropDupKeepLast]
  | cons r rs ih =>
    cases h : rs.any (fun s => s.key = r.key) with
    | true => simpa only [dropDupKeepLast, h, if_true] using ih
    | false =>
      simp only [dropDupKeepLast, h, Bool.false_eq_true, if_false]
      refine List.Pairwise.cons ?_ ih
      intro b hb hkey
      have hb' : b ∈ rs := mem_of_mem_dropDupKeepLast hb
      have : rs.any (fun s => s.key = r.key) = true := by
        refine List.any_eq_true.mpr ⟨b, hb', ?_⟩
        simp [hkey]
      rw [this] at h
      exact Bool.true_eq_false.mp h

theorem find?_dropDupKeepLast (l : List Rec) (k : String × String) :
    findRow (dropDupKeepLast l) k = lookupLast l k := by
  induction l with
  | nil => rfl
  | cons r rs ih =>
    have hrhs : lookupLast (r :: rs) k
        = (lookupLast rs k).or (List.find? (fun s => s.key = k) [r]) := by
      simp only [lookupLast, findRow, List.reverse_cons, List.find?_append]
    rw [hrhs]
    cases h : rs.any (fun s => s.key = r.key) with
    | true =>
      have hL : findRow (dropDupKeepLast (r :: rs)) k
          = findRow (dropDupKeepLast rs) k := by
        simp [findRow, dropDupKeepLast, h]
      rw [hL, ih]
      by_cases hk : r.key = k
      · obtain ⟨b, hb, hbk⟩ := List.any_eq_true.mp h
        have hbk' : b.key = k := by
          have hbr : b.key = r.key := by simpa using hbk
          rw [hbr, hk]
        have hsome : ((lookupLast rs k : Option Rec)).isSome := by
          refine List.find?_isSome.mpr ⟨b, ?_, by simp [hbk']⟩
          simpa using hb
        obtain ⟨v, hv⟩ := Option.isSome_iff_exists.mp hsome
        rw [hv, Option.or_some]
      · have hnil : List.find? (fun s => s.key = k) [r] = none := by
          simp [List.find?_cons, hk]
        rw [hnil, Option.or_none]
    | false =>
      have hL : findRow (dropDupKeepLast (r :: rs)) k
          = List.find? (fun s => s.key = k) (r :: dropDupKeepLast rs) := by
        simp [findRow, dropDupKeepLast, h]
      rw [hL]
      by_cases hk : r.key = k
      · have hnone : lookupLast rs k = none := by
          refine List.find?_eq_none.mpr ?_
          intro b hb
          have hb' : b ∈ rs := by simpa using hb
          simp only [decide_eq_true_eq]
          intro hbk
          have hany : rs.any (fun s => s.key = r.key) = true :=
            List.any_eq_true.mpr ⟨b, hb', by simp [hbk, hk]⟩
          rw [hany] at h
          exact absurd h (by simp)
        rw [hnone, Option.none_or]
        rw [List.find?_cons_of_pos _ (by simp [hk])]
        simp [List.find?_cons, hk]
      · rw [List.find?_cons_of_neg _ (by simp [hk])]
        have hnil : List.find? (fun s => s.key = k) [r] = none := by
          simp [List.find?_cons, hk]
        rw [hnil, Option.or_none, ← ih]
        rfl

theorem dropDupKeepLast_eq_self {l : List Rec}
    (h : l.Pairwise (fun a b => a.key ≠ b.key)) : dropDupKeepLast l = l := by
  induction l with
  | nil => rfl
  | cons r rs ih =>
    have hhead := List.pairwise_cons.mp h
    have hany : rs.any (fun s => s.key = r.key) = false := by
      by_contra hc
      have : rs.any (fun s => s.key = r.key) = true := by
        revert hc; cases rs.any (fun s => s.key = r.key) <;> simp
      obtain ⟨b, hb, hbk⟩ := List.any_eq_true.mp this
      have hbr : b.key = r.key := by simpa using hbk
      exact hhead.1 b hb hbr.symm
    simp [dropDupKeepLast, hany, ih hhead.2]

-- Sample records used by witnesses ------------------------------------

/-- Sample historical row (2024-01, A). -/
def rA : Rec := ⟨"2024-01", "A", "M1", some 100, some 10⟩

/-- Sample incoming row with the same key as rA but new values. -/
def rA2 : Rec := ⟨"2024-01", "A", "M1", some 200, some 20⟩

/-- Sample historical row (2024-02, B), key absent from the incoming batch. -/
def rB : Rec := ⟨"2024-02", "B", "M2", some 50, some 5⟩

/-- C1: merging concatenates historical then incoming and drops duplicate
(PERIODO, IDH) keys keeping the last occurrence, so the result has no
duplicate keys, a key present in the incoming batch resolves to the
incoming batch's (last) row for that key, and a key present only in the
historical table keeps the historical row unchanged. -/
theorem merge_dedup_semantics (hist inc : List Rec) :
    ((mergeDedup hist inc).Pairwise (fun a b => a.key ≠ b.key)) ∧
    (∀ k, hasKey inc k = true →
      findRow (mergeDedup hist inc) k = lookupLast inc k) ∧
    (∀ r ∈ hist, hasKey inc r.key = false →
      lookupLast hist r.key = some r →
      findRow (mergeDedup hist inc) r.key = some r) := by
  refine ⟨dropDupKeepLast_nodupKeys _, ?_, ?_⟩
  · intro k hk
    rw [mergeDedup, find?_dropDupKeepLast]
    unfold lookupLast findRow
    rw [List.reverse_append, List.find?_append]
    obtain ⟨b, hb, hbk⟩ := List.any_eq_true.mp hk
    have hsome : (inc.reverse.find? (fun s => s.key = k)).isSome := by
      refine List.find?_isSome.mpr ⟨b, by simpa using hb, hbk⟩
    obtain ⟨v, hv⟩ := Option.isSome_iff_exists.mp hsome
    rw [hv, Option.or_some]
  · intro r _ hnk hlast
    rw [mergeDedup, find?_dropDupKeepLast]
    unfold lookupLast findRow
    rw [List.reverse_append, List.find?_append]
    have hnone : inc.reverse.find? (fun s => s.key = r.key) = none := by
      refine List.find?_eq_none.mpr ?_
      intro b hb
      simp only [decide_eq_true_eq]
      intro hbk
      have : hasKey inc r.key = true :=
        List.any_eq_true.mpr ⟨b, by simpa using hb, by simp [hbk]⟩
      rw [this] at hnk
      exact absurd hnk (by simp)
    rw [hnone, Option.none_or]
    exact hlast

/-- Witness for C1 at the spec's own example: historical (2024-01, A, 100, 10)
plus (2024-02, B), incoming (2024-01, A, 200, 20). -/
theorem merge_dedup_semantics_witness :
    findRow (mergeDedup [rA, rB] [rA2]) ("2024-01", "A")
        = lookupLast [rA2] ("2024-01", "A") ∧
    findRow (mergeDedup [rA, rB] [rA2]) rB.key = some rB :=
  ⟨(merge_dedup_semantics [rA, rB] [rA2]).2.1 ("2024-01", "A") (by decide),
   (merge_dedup_semantics [rA, rB] [rA2]).2.2 rB (by decide) (by decide)
     (by decide)⟩

/-- C10: when the historical table already has unique (PERIODO, IDH) keys,
merging it with an empty incoming batch returns it unchanged (same rows,
same values, same order). -/
theorem merge_empty_incoming (hist : List Rec)
    (h : hist.Pairwise (fun a b => a.key ≠ b.key)) :
    mergeDedup hist [] = hist := by
  unfold mergeDedup
  rw [List.append_nil]
  exact dropDupKeepLast_eq_self h

/-- Witness for C10 on a concrete two-row unique-key historical table. -/
theorem merge_empty_incoming_witness : mergeDedup [rA, rB] [] = [rA, rB] :=
  merge_empty_incoming [rA, rB] (by decide)

-- Aggregation by period, by (period, brand) and by (period, IDH) --------

/-- Row of the per-period totals table produced by calcular_totales_periodo:
index PERIODO plus summed L14 and VOL (plain rationals, since skipna sums
of a group are never missing) and the guarded COSTO_UNITARIO ratio. -/
structure TRow where
  periodo : String
  l14 : ℚ
  vol : ℚ
  costo : Val
deriving DecidableEq, Repr, Inhabited

/-- Lexicographic comparison of character lists by code point, the
ordering Python uses on strings (written out so that it evaluates in the
kernel). -/
def chLt : List Char → List Char → Bool
  | [], [] => false
  | [], _ :: _ => true
  | _ :: _, [] => false
  | a :: as, b :: bs => if a < b then true else if b < a then false else chLt as bs

/-- Python string comparison a < b. -/
def strLt (a b : String) : Bool := chLt a.data b.data

/-- Insertion step for sorting period strings ascending, as the pandas
groupby (sort=True, lexicographic string order) does. -/
def insertStr (x : String) : List String → List String
  | [] => [x]
  | y :: ys => if strLt x y then x :: y :: ys else y :: insertStr x ys

/-- Sort a list of strings ascending (insertion sort). -/
def sortStrs (l : List String) : List String :=
  l.foldl (fun acc x => insertStr x acc) []

/-- Distinct PERIODO values of a table, ascending: the group keys of
"df.groupby(\x22PERIODO\x22)" (groupby sorts keys; the source's
sort_index() after it is a no-op). -/
def periodosOf (df : List Rec) : List String :=
  sortStrs (df.map (·.periodo)).dedup

/-- Embedding of calcular_totales_periodo:
"df.groupby(\x22PERIODO\x22)[[\x22L14\x22, \x22VOL\x22]].sum()" followed by
the guarded COSTO_UNITARIO ratio and sort_index(). -/
def calcular_totales_periodo (df : List Rec) : List TRow :=
  (periodosOf df).map (fun p =>
    ⟨p, ssum ((df.filter (fun r => r.periodo = p)).map (·.l14)),
      ssum ((df.filter (fun r => r.periodo = p)).map (·.vol)),
      sdiv (ssum ((df.filter (fun r => r.periodo = p)).map (·.l14)))
        (ssum ((df.filter (fun r => r.periodo = p)).map (·.vol)))⟩)

/-- Row of the per-period variations table: every column nullable. -/
structure VRow where
  periodo : String
  l14 : Val
  vol : Val
  costo : Val
deriving DecidableEq, Repr, Inhabited

/-- Trailing rows of "totales.pct_change() * 100" with the infinity
replace: each row is the change of the current totals row against the
immediately preceding one. -/
def variacionesGo (prev : TRow) : List TRow → List VRow
  | [] => []
  | t :: ts =>
    ⟨t.periodo, pctChange (some prev.l14) (some t.l14),
      pctChange (some prev.vol) (some t.vol),
      pctChange prev.costo t.costo⟩ :: variacionesGo t ts

/-- Embedding of calcular_variaciones_periodo:
"variaciones = totales.pct_change() * 100" then
"variaciones.replace([np.inf, -np.inf], np.nan)".  The first row has no
predecessor, so every column of it is missing. -/
def calcular_variaciones_periodo : List TRow → List VRow
  | [] => []
  | t :: ts => ⟨t.periodo, none, none, none⟩ :: variacionesGo t ts

/-- Row of a grouped totals table keyed by (PERIODO, grp) where grp is the
MARCA or the IDH value of the group. -/
structure GRow where
  periodo : String
  grp : String
  l14 : ℚ
  vol : ℚ
  costo : Val
deriving DecidableEq, Repr, Inhabited

/-- Strict lexicographic order on (PERIODO, group) key pairs, matching how
a pandas groupby on two string columns sorts its keys. -/
def ltPair (a b : String × String) : Bool :=
  strLt a.1 b.1 || (a.1 = b.1 && strLt a.2 b.2)

/-- Insertion step for sorting key pairs ascending. -/
def insertPair (x : String × String) :
    List (String × String) → List (String × String)
  | [] => [x]
  | y :: ys => if ltPair x y then x :: y :: ys else y :: insertPair x ys

/-- Sort key pairs ascending lexicographically (insertion sort). -/
def sortPairs (l : List (String × String)) : List (String × String) :=
  l.foldl (fun acc x => insertPair x acc) []

/-- Embedding of "df.groupby([\x22PERIODO\x22, g])[[\x22L14\x22,
\x22VOL\x22]].sum()" plus the guarded COSTO_UNITARIO column, for a string
group column g (MARCA or IDH): one row per distinct key pair, keys sorted
ascending lexicographically. -/
def agruparPorPeriodoY (f : Rec → String) (df : List Rec) : List GRow :=
  (sortPairs ((df.map (fun r => (r.periodo, f r))).dedup)).map (fun k =>
    ⟨k.1, k.2,
      ssum ((df.filter (fun r => r.periodo = k.1 ∧ f r = k.2)).map (·.l14)),
      ssum ((df.filter (fun r => r.periodo = k.1 ∧ f r = k.2)).map (·.vol)),
      sdiv
        (ssum ((df.filter (fun r => r.periodo = k.1 ∧ f r = k.2)).map (·.l14)))
        (ssum ((df.filter (fun r => r.periodo = k.1 ∧ f r = k.2)).map (·.vol)))⟩)

/-- Embedding of totales_por_marca. -/
def totales_por_marca (df : List Rec) : List GRow :=
  agruparPorPeriodoY (·.marca) df

/-- Embedding of the "base" table of top_variaciones_idh: the same
aggregation keyed by (PERIODO, IDH). -/
def baseIdh (df : List Rec) : List GRow :=
  agruparPorPeriodoY (·.idh) df

/-- Row of a grouped variations table: key fields plus nullable changes. -/
structure GVar where
  periodo : String
  grp : String
  l14 : Val
  vol : Val
  costo : Val
deriving DecidableEq, Repr, Inhabited

/-- Predecessor used by "groupby(level=1).pct_change()" for the row at
position k: the closest earlier row of the table with the same group
value, if any. -/
def prevSameGrp (l : List GRow) (k : Nat) : Option GRow :=
  ((l.take k).filter (fun r => r.grp = (l.getD k default).grp)).getLast?

/-- One row of a group-wise pct_change (times 100, infinities replaced):
missing in every value column when the row has no group predecessor. -/
def pctRow (p : Option GRow) (cur : GRow) : GVar :=
  match p with
  | none => ⟨cur.periodo, cur.grp, none, none, none⟩
  | some a =>
    ⟨cur.periodo, cur.grp, pctChange (some a.l14) (some cur.l14),
      pctChange (some a.vol) (some cur.vol), pctChange a.costo cur.costo⟩

/-- Embedding of "tbl.groupby(level=1).pct_change() * 100" followed by the
infinity replace: row order is preserved and each row is compared against
its group predecessor. -/
def groupPctChange (l : List GRow) : List GVar :=
  (List.range l.length).map (fun k => pctRow (prevSameGrp l k) (l.getD k default))

/-- Embedding of variaciones_por_marca. -/
def variaciones_por_marca (df : List Rec) : List GVar :=
  groupPctChange (totales_por_marca df)

/-- Embedding of the "variaciones" table of top_variaciones_idh. -/
def variIdh (df : List Rec) : List GVar :=
  groupPctChange (baseIdh df)

-- Index-wise description of the variation tables ------------------------

theorem variacionesGo_length (ts : List TRow) (prev : TRow) :
    (variacionesGo prev ts).length = ts.length := by
  induction ts generalizing prev with
  | nil => rfl
  | cons t ts ih => simp [variacionesGo, ih]

theorem variacionesGo_getD (ts : List TRow) (prev : TRow) (i : Nat)
    (h : i < ts.length) :
    (variacionesGo prev ts).getD i default
      = (fun a b => (⟨b.periodo, pctChange (some a.l14) (some b.l14),
          pctChange (some a.vol) (some b.vol),
          pctChange a.costo b.costo⟩ : VRow))
        ((prev :: ts).getD i default) (ts.getD i default) := by
  induction ts generalizing prev i with
  | nil => simp at h
  | cons t ts ih =>
    cases i with
    | zero => simp [variacionesGo]
    | succ i =>
      have h' : i < ts.length := by simpa using h
      simp only [variacionesGo, List.getD_cons_succ]
      exact ih t i h'

theorem calcular_variaciones_periodo_length (tot : List TRow) :
    (calcular_variaciones_periodo tot).length = tot.length := by
  cases tot with
  | nil => rfl
  | cons t ts => simp [calcular_variaciones_periodo, variacionesGo_length]

theorem calcular_variaciones_periodo_getD_succ (tot : List TRow) (i : Nat)
    (h : i + 1 < tot.length) :
    (calcular_variaciones_periodo tot).getD (i + 1) default
      = (fun a b => (⟨b.periodo, pctChange (some a.l14) (some b.l14),
          pctChange (some a.vol) (some b.vol),
          pctChange a.costo b.costo⟩ : VRow))
        (tot.getD i default) (tot.getD (i + 1) default) := by
  cases tot with
  | nil => simp at h
  | cons t ts =>
    have h' : i < ts.length := by simpa using h
    simp only [calcular_variaciones_periodo, List.getD_cons_succ]
    exact variacionesGo_getD ts t i h'

theorem groupPctChange_getD (l : List GRow) (k : Nat) (h : k < l.length) :
    (groupPctChange l).getD k default
      = pctRow (prevSameGrp l k) (l.getD k default) := by
  unfold groupPctChange
  simp [List.getD_eq_getElem?_getD, List.getElem?_map, List.getElem?_range, h]

/-- Example totals table for witnesses: L14 goes 100 to 150 (the spec's
worked variation example), VOL 10 to 20, COSTO_UNITARIO 10 to 7.5. -/
def totEx : List TRow :=
  [⟨"2024-01", 100, 10, some 10⟩, ⟨"2024-02", 150, 20, some (15/2)⟩]

/-- C2: the variation table has the same length and row order as the
totals series, its first row is null in every column, and for i > 0 each
column equals (value[i] - value[i-1]) / value[i-1] * 100, with a zero
predecessor (whose division would give an infinity or NaN) giving null;
for the nullable COSTO_UNITARIO column the formula applies whenever both
neighbouring values are present. -/
theorem variaciones_periodo_formula (tot : List TRow) :
    (calcular_variaciones_periodo tot).length = tot.length ∧
    (∀ i, i < tot.length →
      ((calcular_variaciones_periodo tot).getD i default).periodo
        = (tot.getD i default).periodo) ∧
    (∀ v0, (calcular_variaciones_periodo tot).head? = some v0 →
      v0.l14 = none ∧ v0.vol = none ∧ v0.costo = none) ∧
    (∀ i, i + 1 < tot.length →
      ((calcular_variaciones_periodo tot).getD (i + 1) default).l14
        = (if (tot.getD i default).l14 = 0 then none
           else some (((tot.getD (i + 1) default).l14
              - (tot.getD i default).l14) / (tot.getD i default).l14 * 100)) ∧
      ((calcular_variaciones_periodo tot).getD (i + 1) default).vol
        = (if (tot.getD i default).vol = 0 then none
           else some (((tot.getD (i + 1) default).vol
              - (tot.getD i default).vol) / (tot.getD i default).vol * 100)) ∧
      (∀ p c, (tot.getD i default).costo = some p →
        (tot.getD (i + 1) default).costo = some c →
        ((calcular_variaciones_periodo tot).getD (i + 1) default).costo
          = (if p = 0 then none else some ((c - p) / p * 100)))) := by
  refine ⟨calcular_variaciones_periodo_length tot, ?_, ?_, ?_⟩
  · intro i h
    cases tot with
    | nil => simp at h
    | cons t ts =>
      cases i with
      | zero => simp [calcular_variaciones_periodo]
      | succ i =>
        have h' : i + 1 < (t :: ts).length := h
        rw [calcular_variaciones_periodo_getD_succ _ i h']
  · intro v0 hv0
    cases tot with
    | nil => simp [calcular_variaciones_periodo] at hv0
    | cons t ts =>
      simp only [calcular_variaciones_periodo, List.head?_cons,
        Option.some_inj] at hv0
      subst hv0
      exact ⟨rfl, rfl, rfl⟩
  · intro i h
    rw [calcular_variaciones_periodo_getD_succ _ i h]
    refine ⟨by simp [pctChange], by simp [pctChange], ?_⟩
    intro p c hp hc
    show pctChange (tot.getD i default).costo (tot.getD (i + 1) default).costo
        = if p = 0 then none else some ((c - p) / p * 100)
    rw [hp, hc]
    rfl

/-- Witness for C2 at the spec's example: totals L14 of 100 then 150 give
a first-row null and a 50 percent variation. -/
theorem variaciones_periodo_formula_witness :
    ((calcular_variaciones_periodo totEx).getD 1 default).l14 = some 50 ∧
    (∀ v0, (calcular_variaciones_periodo totEx).head? = some v0 →
      v0.l14 = none ∧ v0.vol = none ∧ v0.costo = none) := by
  constructor
  · have h := ((variaciones_periodo_formula totEx).2.2.2 0 (by decide)).1
    rw [h]
    norm_num [totEx]
  · exact (variaciones_periodo_formula totEx).2.2.1

theorem groupPctChange_length (l : List GRow) :
    (groupPctChange l).length = l.length := by
  simp [groupPctChange]

/-- Totals series for the C3 witness: the first period has zero sums and a
missing cost ratio. -/
def totC3 : List TRow := [⟨"p1", 0, 0, none⟩, ⟨"p2", 5, 5, some 1⟩]

/-- Records for the C3 witness: brand M has zero volume in period p1, so
its first cost ratio is missing. -/
def dfC3 : List Rec :=
  [⟨"p1", "A", "M", some 5, some 0⟩, ⟨"p2", "A", "M", some 5, some 5⟩]

/-- C3: the variation computation never raises and yields null wherever
the predecessor value is zero or missing: in the per-period variation
table a zero or missing predecessor in any column makes that variation
cell null (it is a total function, so no exception, and the null replaces
what division would have made infinite); the group-wise per-brand
variation behaves the same way on its group predecessor. -/
theorem variaciones_null_on_degenerate_prev (tot : List TRow) (df : List Rec) :
    (∀ i, i + 1 < tot.length →
      (((tot.getD i default).costo = none ∨ (tot.getD i default).costo = some 0)
        → ((calcular_variaciones_periodo tot).getD (i + 1) default).costo
            = none) ∧
      ((tot.getD i default).l14 = 0 →
        ((calcular_variaciones_periodo tot).getD (i + 1) default).l14 = none) ∧
      ((tot.getD i default).vol = 0 →
        ((calcular_variaciones_periodo tot).getD (i + 1) default).vol = none)) ∧
    (∀ k p, prevSameGrp (totales_por_marca df) k = some p →
      (p.costo = none ∨ p.costo = some 0) →
      ((variaciones_por_marca df).getD k default).costo = none) := by
  constructor
  · intro i h
    rw [calcular_variaciones_periodo_getD_succ _ i h]
    refine ⟨?_, ?_, ?_⟩
    · intro hp
      show pctChange (tot.getD i default).costo (tot.getD (i + 1) default).costo
          = none
      rcases hp with hp | hp
      · rw [hp]; rfl
      · rw [hp]
        cases (tot.getD (i + 1) default).costo with
        | none => rfl
        | some c => simp [pctChange]
    · intro hp
      show pctChange (some (tot.getD i default).l14)
          (some (tot.getD (i + 1) default).l14) = none
      rw [hp]
      simp [pctChange]
    · intro hp
      show pctChange (some (tot.getD i default).vol)
          (some (tot.getD (i + 1) default).vol) = none
      rw [hp]
      simp [pctChange]
  · intro k p hprev hp
    by_cases hk : k < (totales_por_marca df).length
    · unfold variaciones_por_marca
      rw [groupPctChange_getD _ k hk, hprev]
      show pctChange p.costo (((totales_por_marca df).getD k default)).costo
          = none
      rcases hp with hp | hp
      · rw [hp]; rfl
      · rw [hp]
        cases ((totales_por_marca df).getD k default).costo with
        | none => rfl
        | some c => simp [pctChange]
    · have hlen : (variaciones_por_marca df).length ≤ k := by
        unfold variaciones_por_marca
        rw [groupPctChange_length]
        omega
      rw [List.getD_eq_getElem?_getD, List.getElem?_eq_none hlen]
      rfl

/-- Witness for C3: in totC3 every first-period value is zero or missing,
so every variation cell of the second row is null; likewise the brand M
cost variation in dfC3, whose group predecessor has a missing ratio. -/
theorem variaciones_null_on_degenerate_prev_witness :
    ((calcular_variaciones_periodo totC3).getD 1 default).costo = none ∧
    ((calcular_variaciones_periodo totC3).getD 1 default).l14 = none ∧
    ((calcular_variaciones_periodo totC3).getD 1 default).vol = none ∧
    ((variaciones_por_marca dfC3).getD 1 default).costo = none := by
  have h := (variaciones_null_on_degenerate_prev totC3 dfC3).1 0 (by decide)
  refine ⟨h.1 (by decide) , h.2.1 (by decide), h.2.2 (by decide), ?_⟩
  refine (variaciones_null_on_degenerate_prev totC3 dfC3).2 1
    ⟨"p1", "M", 5, 0, none⟩ ?_ (Or.inl rfl)
  show prevSameGrp (totales_por_marca dfC3) 1 = some ⟨"p1", "M", 5, 0, none⟩
  simp +decide [totales_por_marca, agruparPorPeriodoY, dfC3, sortPairs,
    insertPair, ltPair, prevSameGrp, ssum, sdiv, List.dedup]

/-- Records for the C4 witness: period p1 has only zero volume. -/
def dfC4 : List Rec :=
  [⟨"p1", "A", "M", some 7, some 0⟩, ⟨"p1", "B", "M", some 3, none⟩]

/-- C4: the derived COSTO_UNITARIO is null whenever the volume it would
divide by is zero or missing: at row level (cargar_datos divides by
VOL.replace(0, nan), so a zero or missing VOL gives null) and at group
level for the per-period, per-brand and per-IDH aggregates (whose summed
VOL is never missing, and a zero sum gives null); division by a raw zero
never happens and no infinite value is produced. -/
theorem costo_unitario_null_guard (l14v volv : Val) (df : List Rec) :
    ((volv = some 0 ∨ volv = none) → costoUnitarioCell l14v volv = none) ∧
    (∀ t ∈ calcular_totales_periodo df, t.vol = 0 → t.costo = none) ∧
    (∀ g ∈ totales_por_marca df, g.vol = 0 → g.costo = none) ∧
    (∀ g ∈ baseIdh df, g.vol = 0 → g.costo = none) := by
  refine ⟨?_, ?_, ?_, ?_⟩
  · intro hv
    rcases hv with hv | hv <;> rw [hv] <;> cases l14v <;> simp [costoUnitarioCell]
  · intro t ht hvol
    obtain ⟨p, hp, heq⟩ := List.mem_map.mp ht
    subst heq
    dsimp only at hvol ⊢
    unfold sdiv
    rw [if_pos hvol]
  · intro g hg hvol
    obtain ⟨k, hk, heq⟩ := List.mem_map.mp hg
    subst heq
    dsimp only at hvol ⊢
    unfold sdiv
    rw [if_pos hvol]
  · intro g hg hvol
    obtain ⟨k, hk, heq⟩ := List.mem_map.mp hg
    subst heq
    dsimp only at hvol ⊢
    unfold sdiv
    rw [if_pos hvol]

/-- Witness for C4: a zero-volume cell, a missing-volume cell, and the
zero-volume period p1 of dfC4 all yield a null cost ratio. -/
theorem costo_unitario_null_guard_witness :
    costoUnitarioCell (some 7) (some 0) = none ∧
    costoUnitarioCell (some 3) none = none ∧
    (∀ t ∈ calcular_totales_periodo dfC4, t.vol = 0 → t.costo = none) := by
  refine ⟨?_, ?_, (costo_unitario_null_guard (some 7) (some 0) dfC4).2.1⟩
  · exact (costo_unitario_null_guard (some 7) (some 0) dfC4).1 (Or.inl rfl)
  · exact (costo_unitario_null_guard (some 3) none dfC4).1 (Or.inr rfl)

-- Sorting: embedding of DataFrame.sort_values (pandas nargsort over
-- numpy's argsort with the default kind=quicksort) ----------------------

/-!
pandas sort_values on one column computes nargsort(column): missing
values are masked out, the remaining values (reversed when descending)
are ordered with numpy's argsort, and the missing values' positions are
appended at the end.  numpy's default quicksort is an introsort: segments
of at most 16 elements are insertion sorted (stable); longer segments are
median-of-three partitioned (unstable), with a heapsort fallback at depth
2*msb(n).  The functions below translate the generic scalar implementation
(npysort aquicksort / aheapsort); SIMD-dispatched builds differ in tie
order for large arrays but are likewise unstable.
-/

/-- Insertion step of numpy's insertion argsort, ascending: the new index
x moves left past indices with strictly greater value only, so equal
values keep their relative order (stable). -/
def insAsc (v : Nat → ℚ) (x : Nat) : List Nat → List Nat
  | [] => [x]
  | y :: ys => if v x < v y then x :: y :: ys else y :: insAsc v x ys

/-- Insertion argsort of an index list, ascending by v, stable: the exact
behaviour of numpy's quicksort on segments of at most 16 elements. -/
def isortL (v : Nat → ℚ) (l : List Nat) : List Nat :=
  l.foldl (fun acc x => insAsc v x acc) []

/-- Value at position i of the index array ts. -/
def vAt (v : Nat → ℚ) (ts : List Nat) (i : Nat) : ℚ := v (ts.getD i 0)

/-- Swap the entries at positions i and j of the index array. -/
def lswap (ts : List Nat) (i j : Nat) : List Nat :=
  (ts.set i (ts.getD j 0)).set j (ts.getD i 0)

/-- The "do ++pi while (v[*pi] < vp)" scan of numpy's partition: first
position strictly after i whose value is not below the pivot. -/
def scanUp (v : Nat → ℚ) (ts : List Nat) (vp : ℚ) : Nat → Nat → Nat
  | 0, i => i + 1
  | f + 1, i => if vAt v ts (i + 1) < vp then scanUp v ts vp f (i + 1) else i + 1

/-- The "do --pj while (vp < v[*pj])" scan: first position strictly before
j whose value is not above the pivot. -/
def scanDown (v : Nat → ℚ) (ts : List Nat) (vp : ℚ) : Nat → Nat → Nat
  | 0, j => j - 1
  | f + 1, j => if vp < vAt v ts (j - 1) then scanDown v ts vp f (j - 1) else j - 1

/-- The swap loop of numpy's quicksort partition; returns the updated
index array and the final left scan position pi. -/
def partLoop (v : Nat → ℚ) (vp : ℚ) :
    Nat → List Nat → Nat → Nat → List Nat × Nat
  | 0, ts, pi, _ => (ts, pi)
  | f + 1, ts, pi, pj =>
    match scanUp v ts vp (ts.length + 2) pi,
        scanDown v ts vp (ts.length + 2) pj with
    | pi', pj' =>
      if pi' ≥ pj' then (ts, pi')
      else partLoop v vp f (lswap ts pi' pj') pi' pj' 

/-- One-based read into the heapsort segment starting at pl. -/
def aGet (ts : List Nat) (pl i : Nat) : Nat := ts.getD (pl + i - 1) 0

/-- One-based write into the heapsort segment starting at pl. -/
def aSet (ts : List Nat) (pl i x : Nat) : List Nat := ts.set (pl + i - 1) x

/-- The shared sift-down loop of numpy's aheapsort. -/
def siftLoop (v : Nat → ℚ) (pl nn : Nat) (vtmp : ℚ) :
    Nat → List Nat → Nat → Nat → List Nat × Nat
  | 0, ts, i, _ => (ts, i)
  | f + 1, ts, i, j =>
    if j ≤ nn then
      if j < nn ∧ v (aGet ts pl j) < v (aGet ts pl (j + 1)) then
        if vtmp < v (aGet ts pl (j + 1)) then
          siftLoop v pl nn vtmp f (aSet ts pl i (aGet ts pl (j + 1))) (j + 1)
            ((j + 1) + (j + 1))
        else (ts, i)
      else
        if vtmp < v (aGet ts pl j) then
          siftLoop v pl nn vtmp f (aSet ts pl i (aGet ts pl j)) j (j + j)
        else (ts, i)
    else (ts, i)

/-- Heap construction phase of numpy's aheapsort. -/
def heapBuild (v : Nat → ℚ) (pl nn : Nat) : Nat → List Nat → Nat → List Nat
  | 0, ts, _ => ts
  | f + 1, ts, l =>
    if l = 0 then ts
    else
      match siftLoop v pl nn (v (aGet ts pl l)) (nn + 2) ts l (2 * l) with
      | (ts', i) => heapBuild v pl nn f (aSet ts' pl i (aGet ts pl l)) (l - 1)

/-- Extraction phase of numpy's aheapsort. -/
def heapExtract (v : Nat → ℚ) (pl : Nat) : Nat → List Nat → Nat → List Nat
  | 0, ts, _ => ts
  | f + 1, ts, nn =>
    if nn ≤ 1 then ts
    else
      match aGet ts pl nn, aSet ts pl nn (aGet ts pl 1) with
      | tmp, ts' =>
        match siftLoop v pl (nn - 1) (v tmp) (nn + 2) ts' 1 2 with
        | (ts'', i) => heapExtract v pl f (aSet ts'' pl i tmp) (nn - 1)

/-- numpy's aheapsort on the segment [pl, pr] of the index array. -/
def aheapsortSeg (v : Nat → ℚ) (ts : List Nat) (pl pr : Nat) : List Nat :=
  heapExtract v pl (pr + 2)
    (heapBuild v pl (pr - pl + 1) (pr + 2) ts ((pr - pl + 1) / 2)) (pr - pl + 1)

/-- Insertion sort of the segment [pl, pr] of the index array (numpy's
small-segment branch), done by splicing the stably sorted slice back. -/
def isortSeg (v : Nat → ℚ) (ts : List Nat) (pl pr : Nat) : List Nat :=
  ts.take pl ++ isortL v ((ts.drop pl).take (pr + 1 - pl)) ++ ts.drop (pr + 1)

/-- Highest set bit position (npy_get_msb), fuel-based so that it reduces
in the kernel. -/
def msbFuel : Nat → Nat → Nat
  | 0, _ => 0
  | f + 1, n => if 2 ≤ n then msbFuel f (n / 2) + 1 else 0

/-- Main loop of numpy's introspective argsort: partition segments longer
than 16 elements (median-of-three, largest half pushed on the explicit
stack), insertion sort the small ones, and fall back to heapsort when the
depth budget is exhausted. -/
def qsLoop (v : Nat → ℚ) :
    Nat → List Nat → Nat → Nat → Int → List (Nat × Nat) → List Nat
  | 0, ts, _, _, _, _ => ts
  | f + 1, ts, pl, pr, dl, stk =>
    if pl + 16 ≤ pr then
      if dl < 0 then
        match aheapsortSeg v ts pl pr, stk with
        | ts', [] => ts'
        | ts', (pl', pr') :: stk' => qsLoop v f ts' pl' pr' (dl - 1) stk'
      else
        let pm := pl + (pr - pl) / 2
        let ts1 := if vAt v ts pm < vAt v ts pl then lswap ts pm pl else ts
        let ts2 := if vAt v ts1 pr < vAt v ts1 pm then lswap ts1 pr pm else ts1
        let ts3 := if vAt v ts2 pm < vAt v ts2 pl then lswap ts2 pm pl else ts2
        let vp := vAt v ts3 pm
        let ts4 := lswap ts3 pm (pr - 1)
        match partLoop v vp (pr + 2) ts4 pl (pr - 1) with
        | (ts5, pi) =>
          let ts6 := lswap ts5 pi (pr - 1)
          if pi - pl < pr - pi then
            qsLoop v f ts6 pl (pi - 1) (dl - 1) ((pi + 1, pr) :: stk)
          else
            qsLoop v f ts6 (pi + 1) pr (dl - 1) ((pl, pi - 1) :: stk)
    else
      match isortSeg v ts pl pr, stk with
      | ts', [] => ts'
      | ts', (pl', pr') :: stk' => qsLoop v f ts' pl' pr' dl stk'

/-- numpy argsort with kind=quicksort on n indices valued by v: segments
of at most 16 elements are exactly the stable insertion argsort (the
introsort's while loop is skipped at once), longer inputs run the
introsort loop with depth budget 2*msb(n). -/
def npArgsort (v : Nat → ℚ) (n : Nat) : List Nat :=
  if n ≤ 16 then isortL v (List.range n)
  else qsLoop v (2 * n + 16) (List.range n) 0 (n - 1) (2 * (msbFuel n n)) []

/-- The (position, value) pairs of the non-missing entries of a column, in
order: pandas' items[~mask] paired with arange(len)[~mask]. -/
def enumVals : Nat → List Val → List (Nat × ℚ)
  | _, [] => []
  | k, none :: rest => enumVals (k + 1) rest
  | k, some q :: rest => (k, q) :: enumVals (k + 1) rest

/-- Positions of the missing entries of a column, in order: pandas'
np.nonzero(mask)[0]. -/
def nanIdxImpl : Nat → List Val → List Nat
  | _, [] => []
  | k, none :: rest => k :: nanIdxImpl (k + 1) rest
  | k, some _ :: rest => nanIdxImpl (k + 1) rest

/-- Embedding of pandas nargsort(column, kind=quicksort, na_position=last):
the row permutation used by sort_values on one column.  For descending
order the non-missing values and their positions are reversed, argsorted
ascending, and the result reversed again; missing-value positions are
appended at the end in both directions. -/
def nargsort (vals : List Val) (asc : Bool) : List Nat :=
  match (if asc then enumVals 0 vals else (enumVals 0 vals).reverse) with
  | nn =>
    (if asc
      then (npArgsort (fun k => (nn.getD k (0, 0)).2) nn.length).map
        (fun a => (nn.getD a (0, 0)).1)
      else ((npArgsort (fun k => (nn.getD k (0, 0)).2) nn.length).map
        (fun a => (nn.getD a (0, 0)).1)).reverse)
      ++ nanIdxImpl 0 vals

-- Ranking: embedding of top_variaciones_idh -----------------------------

/-- Embedding of "variaciones.groupby(\x22IDH\x22).tail(1)": keep, in
original row order, each group's last row. -/
def lastPerGrp : List GVar → List GVar
  | [] => []
  | r :: rs =>
    if rs.any (fun s => s.grp = r.grp) then lastPerGrp rs
    else r :: lastPerGrp rs

/-- The "ult" table of top_variaciones_idh: the most recent variation row
of every IDH. -/
def ultVariaciones (df : List Rec) : List GVar :=
  lastPerGrp (variIdh df)

/-- The three ranked metrics of top_variaciones_idh. -/
inductive Kpi
  | L14
  | VOL
  | COSTO
deriving DecidableEq, Repr

/-- Column selector for a metric. -/
def kpiVal (k : Kpi) (r : GVar) : Val :=
  match k with
  | .L14 => r.l14
  | .VOL => r.vol
  | .COSTO => r.costo

/-- Round half to even (numpy / pandas rounding) at integer precision. -/
def roundHalfEven (q : ℚ) : ℤ :=
  if q - ⌊q⌋ < 1 / 2 then ⌊q⌋
  else if 1 / 2 < q - ⌊q⌋ then ⌊q⌋ + 1
  else if ⌊q⌋ % 2 = 0 then ⌊q⌋ else ⌊q⌋ + 1

/-- DataFrame.round(2) on one nullable cell. -/
def round2 (x : Val) : Val :=
  x.map (fun q => (roundHalfEven (q * 100) : ℚ) / 100)

/-- DataFrame.round(2) on a variation row. -/
def round2Row (r : GVar) : GVar :=
  ⟨r.periodo, r.grp, round2 r.l14, round2 r.vol, round2 r.costo⟩

/-- Embedding of the Top_Subidas entry of top_variaciones_idh for one
metric: "ult.sort_values(kpi, ascending=False).head(top_n).round(2)". -/
def topVarUp (df : List Rec) (k : Kpi) (n : Nat) : List GVar :=
  (((nargsort ((ultVariaciones df).map (kpiVal k)) false).map
      (fun i => (ultVariaciones df).getD i default)).take n).map round2Row

/-- Embedding of the Top_Bajadas entry for one metric:
"ult.sort_values(kpi, ascending=True).head(top_n).round(2)". -/
def topVarDown (df : List Rec) (k : Kpi) (n : Nat) : List GVar :=
  (((nargsort ((ultVariaciones df).map (kpiVal k)) true).map
      (fun i => (ultVariaciones df).getD i default)).take n).map round2Row

/-- The descending order that the claim asserts for gainer rankings, read
on row positions of the ult table: larger metric first, equal metrics in
original row order (stability), missing values last in original order. -/
def descRelB (vals : List Val) (i j : Nat) : Bool :=
  match vals.getD i none, vals.getD j none with
  | some a, some b => decide (b < a) || (decide (a = b) && decide (i < j))
  | some _, none => true
  | none, some _ => false
  | none, none => decide (i < j)

/-- The ascending order that the claim asserts for decliner rankings. -/
def ascRelB (vals : List Val) (i j : Nat) : Bool :=
  match vals.getD i none, vals.getD j none with
  | some a, some b => decide (a < b) || (decide (a = b) && decide (i < j))
  | some _, none => true
  | none, some _ => false
  | none, none => decide (i < j)

-- Stability and order of the insertion argsort --------------------------

theorem insAsc_perm (v : Nat → ℚ) (x : Nat) (l : List Nat) :
    (insAsc v x l).Perm (x :: l) := by
  induction l with
  | nil => simp [insAsc]
  | cons y ys ih =>
    by_cases h : v x < v y
    · rw [insAsc, if_pos h]
    · rw [insAsc, if_neg h]
      exact (ih.cons y).trans (List.Perm.swap x y ys)

theorem isortL_perm_aux (v : Nat → ℚ) (l : List Nat) :
    ∀ acc : List Nat,
      (l.foldl (fun acc x => insAsc v x acc) acc).Perm (acc ++ l) := by
  induction l with
  | nil => intro acc; simp
  | cons x xs ih =>
    intro acc
    simp only [List.foldl_cons]
    refine (ih (insAsc v x acc)).trans ?_
    refine (List.Perm.append_right xs (insAsc_perm v x acc)).trans ?_
    exact List.perm_middle.symm

theorem isortL_perm (v : Nat → ℚ) (l : List Nat) : (isortL v l).Perm l := by
  simpa using isortL_perm_aux v l []

/-- The strict order that characterises a stable ascending argsort of
distinct indices: by value, then by index on ties. -/
def lexRel (v : Nat → ℚ) (a b : Nat) : Prop :=
  v a < v b ∨ (v a = v b ∧ a < b)

theorem lexRel_le {v : Nat → ℚ} {a b : Nat} (h : lexRel v a b) : v a ≤ v b := by
  rcases h with h | ⟨h, _⟩
  · exact le_of_lt h
  · exact le_of_eq h

theorem insAsc_pairwise (v : Nat → ℚ) (x : Nat) (l : List Nat)
    (hl : l.Pairwise (lexRel v)) (hx : ∀ y ∈ l, y < x) :
    (insAsc v x l).Pairwise (lexRel v) := by
  induction l with
  | nil => simp [insAsc, List.pairwise_singleton]
  | cons y ys ih =>
    obtain ⟨hy, hys⟩ := List.pairwise_cons.mp hl
    by_cases h : v x < v y
    · rw [insAsc, if_pos h]
      refine List.Pairwise.cons ?_ hl
      intro z hz
      rcases List.mem_cons.mp hz with hz | hz
      · subst hz
        exact Or.inl h
      · exact Or.inl (lt_of_lt_of_le h (lexRel_le (hy z hz)))
    · rw [insAsc, if_neg h]
      refine List.Pairwise.cons ?_
        (ih hys (fun z hz => hx z (List.mem_cons_of_mem y hz)))
      intro z hz
      rcases List.mem_cons.mp ((insAsc_perm v x ys).mem_iff.mp hz) with hz | hz
      · subst hz
        rcases lt_or_eq_of_le (not_lt.mp h) with hlt | heq
        · exact Or.inl hlt
        · exact Or.inr ⟨heq, hx y (List.mem_cons_self y ys)⟩
      · exact hy z hz

theorem isort_fold_pairwise (v : Nat → ℚ) (l : List Nat) :
    ∀ acc : List Nat, l.Pairwise (· < ·) → acc.Pairwise (lexRel v) →
      (∀ a ∈ acc, ∀ b ∈ l, a < b) →
      (l.foldl (fun acc x => insAsc v x acc) acc).Pairwise (lexRel v) := by
  induction l with
  | nil => intro acc _ h2 _; simpa using h2
  | cons x xs ih =>
    intro acc h1 h2 h3
    obtain ⟨hx, hxs⟩ := List.pairwise_cons.mp h1
    simp only [List.foldl_cons]
    refine ih (insAsc v x acc) hxs ?_ ?_
    · exact insAsc_pairwise v x acc h2
        (fun y hy => h3 y hy x (List.mem_cons_self x xs))
    · intro a ha b hb
      rcases List.mem_cons.mp ((insAsc_perm v x acc).mem_iff.mp ha) with ha | ha
      · subst ha
        exact hx b hb
      · exact h3 a ha b (List.mem_cons_of_mem x hb)

theorem isortL_range_pairwise (v : Nat → ℚ) (n : Nat) :
    (isortL v (List.range n)).Pairwise (lexRel v) :=
  isort_fold_pairwise v (List.range n) [] (List.pairwise_lt_range n)
    (by simp) (by simp)

theorem npArgsort_small (v : Nat → ℚ) {n : Nat} (h : n ≤ 16) :
    npArgsort v n = isortL v (List.range n) := by
  rw [npArgsort, if_pos h]

theorem npArgsort_small_mem (v : Nat → ℚ) {n : Nat} (h : n ≤ 16) {a : Nat}
    (ha : a ∈ npArgsort v n) : a < n := by
  rw [npArgsort_small v h] at ha
  exact List.mem_range.mp ((isortL_perm v (List.range n)).mem_iff.mp ha)

theorem enumVals_mem (l : List Val) :
    ∀ (k : Nat) (p : Nat × ℚ), p ∈ enumVals k l →
      k ≤ p.1 ∧ p.1 - k < l.length ∧ l.getD (p.1 - k) none = some p.2 := by
  induction l with
  | nil => intro k p h; simp [enumVals] at h
  | cons a rest ih =>
    intro k p h
    cases a with
    | none =>
      rw [enumVals] at h
      obtain ⟨h1, h2, h3⟩ := ih (k + 1) p h
      refine ⟨by omega, by simp only [List.length_cons]; omega, ?_⟩
      have hd : p.1 - k = (p.1 - (k + 1)) + 1 := by omega
      rw [hd, List.getD_cons_succ]
      exact h3
    | some q =>
      rw [enumVals] at h
      rcases List.mem_cons.mp h with h | h
      · subst h
        exact ⟨le_refl k, by simp, by simp⟩
      · obtain ⟨h1, h2, h3⟩ := ih (k + 1) p h
        refine ⟨by omega, by simp only [List.length_cons]; omega, ?_⟩
        have hd : p.1 - k = (p.1 - (k + 1)) + 1 := by omega
        rw [hd, List.getD_cons_succ]
        exact h3

theorem enumVals_fst_mono (l : List Val) :
    ∀ k : Nat, (enumVals k l).Pairwise (fun p q => p.1 < q.1) := by
  induction l with
  | nil => intro k; simp [enumVals]
  | cons a rest ih =>
    intro k
    cases a with
    | none => rw [enumVals]; exact ih (k + 1)
    | some q =>
      rw [enumVals]
      refine List.Pairwise.cons ?_ (ih (k + 1))
      intro p hp
      have := (enumVals_mem rest (k + 1) p hp).1
      simpa using by omega

theorem nanIdx_mem (l : List Val) :
    ∀ (k : Nat) (i : Nat), i ∈ nanIdxImpl k l →
      k ≤ i ∧ i - k < l.length ∧ l.getD (i - k) none = none := by
  induction l with
  | nil => intro k i h; simp [nanIdxImpl] at h
  | cons a rest ih =>
    intro k i h
    cases a with
    | none =>
      rw [nanIdxImpl] at h
      rcases List.mem_cons.mp h with h | h
      · refine ⟨by omega, by simp only [List.length_cons]; omega, ?_⟩
        have hd : i - k = 0 := by omega
        rw [hd]
        rfl
      · obtain ⟨h1, h2, h3⟩ := ih (k + 1) i h
        refine ⟨by omega, by simp only [List.length_cons]; omega, ?_⟩
        have hd : i - k = (i - (k + 1)) + 1 := by omega
        rw [hd, List.getD_cons_succ]
        exact h3
    | some q =>
      rw [nanIdxImpl] at h
      obtain ⟨h1, h2, h3⟩ := ih (k + 1) i h
      refine ⟨by omega, by simp only [List.length_cons]; omega, ?_⟩
      have hd : i - k = (i - (k + 1)) + 1 := by omega
      rw [hd, List.getD_cons_succ]
      exact h3

theorem nanIdx_mono (l : List Val) :
    ∀ k : Nat, (nanIdxImpl k l).Pairwise (· < ·) := by
  induction l with
  | nil => intro k; simp [nanIdxImpl]
  | cons a rest ih =>
    intro k
    cases a with
    | some q => rw [nanIdxImpl]; exact ih (k + 1)
    | none =>
      rw [nanIdxImpl]
      refine List.Pairwise.cons ?_ (ih (k + 1))
      intro i hi
      have := (nanIdx_mem rest (k + 1) i hi).1
      omega

theorem ascRelB_some_some {vals : List Val} {i j : Nat} {a b : ℚ}
    (hi : vals.getD i none = some a) (hj : vals.getD j none = some b) :
    ascRelB vals i j
      = (decide (a < b) || (decide (a = b) && decide (i < j))) := by
  unfold ascRelB
  rw [hi, hj]

theorem ascRelB_some_none {vals : List Val} {i j : Nat} {a : ℚ}
    (hi : vals.getD i none = some a) (hj : vals.getD j none = none) :
    ascRelB vals i j = true := by
  unfold ascRelB
  rw [hi, hj]

theorem ascRelB_none_none {vals : List Val} {i j : Nat}
    (hi : vals.getD i none = none) (hj : vals.getD j none = none) :
    ascRelB vals i j = decide (i < j) := by
  unfold ascRelB
  rw [hi, hj]

theorem descRelB_some_some {vals : List Val} {i j : Nat} {a b : ℚ}
    (hi : vals.getD i none = some a) (hj : vals.getD j none = some b) :
    descRelB vals i j
      = (decide (b < a) || (decide (a = b) && decide (i < j))) := by
  unfold descRelB
  rw [hi, hj]

theorem descRelB_some_none {vals : List Val} {i j : Nat} {a : ℚ}
    (hi : vals.getD i none = some a) (hj : vals.getD j none = none) :
    descRelB vals i j = true := by
  unfold descRelB
  rw [hi, hj]

theorem descRelB_none_none {vals : List Val} {i j : Nat}
    (hi : vals.getD i none = none) (hj : vals.getD j none = none) :
    descRelB vals i j = decide (i < j) := by
  unfold descRelB
  rw [hi, hj]

theorem enumVals_getD_mem (vals : List Val) {a : Nat}
    (h : a < (enumVals 0 vals).length) :
    (enumVals 0 vals).getD a (0, 0) ∈ enumVals 0 vals := by
  rw [List.getD_eq_getElem _ _ h]
  exact List.getElem_mem h

theorem enumVals_getD_val (vals : List Val) {a : Nat}
    (h : a < (enumVals 0 vals).length) :
    vals.getD ((enumVals 0 vals).getD a (0, 0)).1 none
      = some ((enumVals 0 vals).getD a (0, 0)).2 := by
  have := (enumVals_mem vals 0 _ (enumVals_getD_mem vals h)).2.2
  simpa using this

theorem enumVals_getD_mono (vals : List Val) {a b : Nat}
    (ha : a < (enumVals 0 vals).length) (hb : b < (enumVals 0 vals).length)
    (hab : a < b) :
    ((enumVals 0 vals).getD a (0, 0)).1 < ((enumVals 0 vals).getD b (0, 0)).1
    := by
  have := List.pairwise_iff_get.mp (enumVals_fst_mono vals 0) ⟨a, ha⟩ ⟨b, hb⟩ hab
  rwa [List.getD_eq_getElem _ _ ha, List.getD_eq_getElem _ _ hb]

/-- Ascending sort_values permutation order (stable regime): when at most
16 values are non-missing, the nargsort(ascending) permutation lists
positions by ascending value, ties in original order, missing last. -/
theorem nargsort_pairwise_asc (vals : List Val)
    (h16 : (enumVals 0 vals).length ≤ 16) :
    (nargsort vals true).Pairwise (fun i j => ascRelB vals i j = true) := by
  have hmain : nargsort vals true
      = (npArgsort (fun k => ((enumVals 0 vals).getD k (0, 0)).2)
          (enumVals 0 vals).length).map
            (fun a => ((enumVals 0 vals).getD a (0, 0)).1)
        ++ nanIdxImpl 0 vals := rfl
  rw [hmain, npArgsort_small _ h16]
  refine List.pairwise_append.mpr ⟨?_, ?_, ?_⟩
  · refine List.pairwise_map.mpr ?_
    refine List.Pairwise.imp_of_mem ?_
      (isortL_range_pairwise (fun k => ((enumVals 0 vals).getD k (0, 0)).2) _)
    intro a b ha hb hab
    have ham : a < (enumVals 0 vals).length :=
      List.mem_range.mp ((isortL_perm _ _).mem_iff.mp ha)
    have hbm : b < (enumVals 0 vals).length :=
      List.mem_range.mp ((isortL_perm _ _).mem_iff.mp hb)
    rw [ascRelB_some_some (enumVals_getD_val vals ham)
      (enumVals_getD_val vals hbm)]
    rcases hab with hlt | ⟨heq, hab⟩
    · have hlt' : ((enumVals 0 vals).getD a (0, 0)).2
          < ((enumVals 0 vals).getD b (0, 0)).2 := hlt
      rw [decide_eq_true hlt']
      rfl
    · have heq' : ((enumVals 0 vals).getD a (0, 0)).2
          = ((enumVals 0 vals).getD b (0, 0)).2 := heq
      rw [decide_eq_true heq',
        decide_eq_true (enumVals_getD_mono vals ham hbm hab)]
      simp only [Bool.true_and, Bool.or_true]
  · refine List.Pairwise.imp_of_mem ?_ (nanIdx_mono vals 0)
    intro i j hi hj hij
    have hin := (nanIdx_mem vals 0 i hi).2.2
    have hjn := (nanIdx_mem vals 0 j hj).2.2
    rw [ascRelB_none_none (by simpa using hin) (by simpa using hjn)]
    exact decide_eq_true hij
  · intro x hx y hy
    obtain ⟨a, ha, rfl⟩ := List.mem_map.mp hx
    have ham : a < (enumVals 0 vals).length :=
      List.mem_range.mp ((isortL_perm _ _).mem_iff.mp ha)
    have hyn := (nanIdx_mem vals 0 y hy).2.2
    exact ascRelB_some_none (enumVals_getD_val vals ham) (by simpa using hyn)

theorem enumValsRev_getD_val (vals : List Val) {a : Nat}
    (h : a < (enumVals 0 vals).reverse.length) :
    vals.getD ((enumVals 0 vals).reverse.getD a (0, 0)).1 none
      = some ((enumVals 0 vals).reverse.getD a (0, 0)).2 := by
  have hmem : (enumVals 0 vals).reverse.getD a (0, 0) ∈ enumVals 0 vals := by
    rw [List.getD_eq_getElem _ _ h]
    exact List.mem_reverse.mp (List.getElem_mem h)
  have := (enumVals_mem vals 0 _ hmem).2.2
  simpa using this

theorem enumValsRev_getD_anti (vals : List Val) {a b : Nat}
    (ha : a < (enumVals 0 vals).reverse.length)
    (hb : b < (enumVals 0 vals).reverse.length) (hab : a < b) :
    ((enumVals 0 vals).reverse.getD b (0, 0)).1
      < ((enumVals 0 vals).reverse.getD a (0, 0)).1 := by
  have hrev : (enumVals 0 vals).reverse.Pairwise (fun p q => q.1 < p.1) :=
    List.pairwise_reverse.mpr (enumVals_fst_mono vals 0)
  have := List.pairwise_iff_get.mp hrev ⟨a, ha⟩ ⟨b, hb⟩ hab
  rwa [List.getD_eq_getElem _ _ ha, List.getD_eq_getElem _ _ hb]

/-- Descending sort_values permutation order (stable regime): when at most
16 values are non-missing, the nargsort(descending) permutation lists
positions by descending value, ties in original order, missing last. -/
theorem nargsort_pairwise_desc (vals : List Val)
    (h16 : (enumVals 0 vals).length ≤ 16) :
    (nargsort vals false).Pairwise (fun i j => descRelB vals i j = true) := by
  have h16' : (enumVals 0 vals).reverse.length ≤ 16 := by
    rwa [List.length_reverse]
  have hmain : nargsort vals false
      = ((npArgsort (fun k => ((enumVals 0 vals).reverse.getD k (0, 0)).2)
          (enumVals 0 vals).reverse.length).map
            (fun a => ((enumVals 0 vals).reverse.getD a (0, 0)).1)).reverse
        ++ nanIdxImpl 0 vals := rfl
  rw [hmain, npArgsort_small _ h16']
  refine List.pairwise_append.mpr ⟨?_, ?_, ?_⟩
  · rw [List.pairwise_reverse]
    refine List.pairwise_map.mpr ?_
    refine List.Pairwise.imp_of_mem ?_
      (isortL_range_pairwise
        (fun k => ((enumVals 0 vals).reverse.getD k (0, 0)).2) _)
    intro a b ha hb hab
    have ham : a < (enumVals 0 vals).reverse.length :=
      List.mem_range.mp ((isortL_perm _ _).mem_iff.mp ha)
    have hbm : b < (enumVals 0 vals).reverse.length :=
      List.mem_range.mp ((isortL_perm _ _).mem_iff.mp hb)
    rw [descRelB_some_some (enumValsRev_getD_val vals hbm)
      (enumValsRev_getD_val vals ham)]
    rcases hab with hlt | ⟨heq, hab⟩
    · have hlt' : ((enumVals 0 vals).reverse.getD a (0, 0)).2
          < ((enumVals 0 vals).reverse.getD b (0, 0)).2 := hlt
      rw [decide_eq_true hlt']
      rfl
    · have heq' : ((enumVals 0 vals).reverse.getD b (0, 0)).2
          = ((enumVals 0 vals).reverse.getD a (0, 0)).2 := heq.symm
      rw [decide_eq_true heq',
        decide_eq_true (enumValsRev_getD_anti vals ham hbm hab)]
      simp only [Bool.true_and, Bool.or_true]
  · refine List.Pairwise.imp_of_mem ?_ (nanIdx_mono vals 0)
    intro i j hi hj hij
    have hin := (nanIdx_mem vals 0 i hi).2.2
    have hjn := (nanIdx_mem vals 0 j hj).2.2
    rw [descRelB_none_none (by simpa using hin) (by simpa using hjn)]
    exact decide_eq_true hij
  · intro x hx y hy
    obtain ⟨a, ha, rfl⟩ :=
      List.mem_map.mp (List.mem_reverse.mp hx)
    have ham : a < (enumVals 0 vals).reverse.length :=
      List.mem_range.mp ((isortL_perm _ _).mem_iff.mp ha)
    have hyn := (nanIdx_mem vals 0 y hy).2.2
    exact descRelB_some_none (enumValsRev_getD_val vals ham)
      (by simpa using hyn)

/-- A cell rounded to two decimal places: missing, or an integer number of
hundredths. -/
def Rounded2 (x : Val) : Prop :=
  x = none ∨ ∃ z : ℤ, x = some ((z : ℚ) / 100)

theorem round2_rounded (x : Val) : Rounded2 (round2 x) := by
  cases x with
  | none => exact Or.inl rfl
  | some q => exact Or.inr ⟨roundHalfEven (q * 100), rfl⟩

/-- C5 (amended): for every input and metric the gainer and decliner
rankings return at most n rows whose values are rounded to two decimal
places, and the returned rows are exactly the first n rows of the
sort_values permutation of the per-IDH last-variation table; whenever at
most 16 rows have a non-missing value in the chosen metric (numpy's
insertion-sort regime, where its default quicksort is stable) that
permutation is ordered by the metric - descending for gainers, ascending
for decliners - with ties in original row order and missing values last.
For larger inputs the tie order is numpy's unstable quicksort order. -/
theorem top_variaciones_order (df : List Rec) (k : Kpi) (n : Nat) :
    (topVarUp df k n).length ≤ n ∧ (topVarDown df k n).length ≤ n ∧
    (∀ r ∈ topVarUp df k n,
      Rounded2 r.l14 ∧ Rounded2 r.vol ∧ Rounded2 r.costo) ∧
    (∀ r ∈ topVarDown df k n,
      Rounded2 r.l14 ∧ Rounded2 r.vol ∧ Rounded2 r.costo) ∧
    topVarUp df k n
      = ((nargsort ((ultVariaciones df).map (kpiVal k)) false).take n).map
          (fun i => round2Row ((ultVariaciones df).getD i default)) ∧
    topVarDown df k n
      = ((nargsort ((ultVariaciones df).map (kpiVal k)) true).take n).map
          (fun i => round2Row ((ultVariaciones df).getD i default)) ∧
    ((enumVals 0 ((ultVariaciones df).map (kpiVal k))).length ≤ 16 →
      ((nargsort ((ultVariaciones df).map (kpiVal k)) false).take n).Pairwise
        (fun i j => descRelB ((ultVariaciones df).map (kpiVal k)) i j = true) ∧
      ((nargsort ((ultVariaciones df).map (kpiVal k)) true).take n).Pairwise
        (fun i j => ascRelB ((ultVariaciones df).map (kpiVal k)) i j = true))
    := by
  refine ⟨?_, ?_, ?_, ?_, ?_, ?_, ?_⟩
  · unfold topVarUp
    rw [List.length_map]
    exact List.length_take_le n _
  · unfold topVarDown
    rw [List.length_map]
    exact List.length_take_le n _
  · intro r hr
    obtain ⟨r', _, rfl⟩ := List.mem_map.mp hr
    exact ⟨round2_rounded r'.l14, round2_rounded r'.vol, round2_rounded r'.costo⟩
  · intro r hr
    obtain ⟨r', _, rfl⟩ := List.mem_map.mp hr
    exact ⟨round2_rounded r'.l14, round2_rounded r'.vol, round2_rounded r'.costo⟩
  · unfold topVarUp
    rw [← List.map_take, List.map_map]
    rfl
  · unfold topVarDown
    rw [← List.map_take, List.map_map]
    rfl
  · intro h16
    exact ⟨List.Pairwise.sublist (List.take_sublist n _)
        (nargsort_pairwise_desc _ h16),
      List.Pairwise.sublist (List.take_sublist n _)
        (nargsort_pairwise_asc _ h16)⟩

-- Concrete inputs exercising the ranking --------------------------------

/-- Seventeen IDHs (A..Q) with identical L14 values in two periods a and b
and zero volume throughout: every entity has the same L14 variation, so
the gainer ranking is decided purely by tie-breaking, and seventeen tied
values put numpy's argsort in its unstable quicksort regime. -/
def df17 : List Rec :=
  [⟨"a", "A", "M", some 10, some 0⟩,
   ⟨"a", "B", "M", some 10, some 0⟩,
   ⟨"a", "C", "M", some 10, some 0⟩,
   ⟨"a", "D", "M", some 10, some 0⟩,
   ⟨"a", "E", "M", some 10, some 0⟩,
   ⟨"a", "F", "M", some 10, some 0⟩,
   ⟨"a", "G", "M", some 10, some 0⟩,
   ⟨"a", "H", "M", some 10, some 0⟩,
   ⟨"a", "I", "M", some 10, some 0⟩,
   ⟨"a", "J", "M", some 10, some 0⟩,
   ⟨"a", "K", "M", some 10, some 0⟩,
   ⟨"a", "L", "M", some 10, some 0⟩,
   ⟨"a", "M", "M", some 10, some 0⟩,
   ⟨"a", "N", "M", some 10, some 0⟩,
   ⟨"a", "O", "M", some 10, some 0⟩,
   ⟨"a", "P", "M", some 10, some 0⟩,
   ⟨"a", "Q", "M", some 10, some 0⟩,
   ⟨"b", "A", "M", some 20, some 0⟩,
   ⟨"b", "B", "M", some 20, some 0⟩,
   ⟨"b", "C", "M", some 20, some 0⟩,
   ⟨"b", "D", "M", some 20, some 0⟩,
   ⟨"b", "E", "M", some 20, some 0⟩,
   ⟨"b", "F", "M", some 20, some 0⟩,
   ⟨"b", "G", "M", some 20, some 0⟩,
   ⟨"b", "H", "M", some 20, some 0⟩,
   ⟨"b", "I", "M", some 20, some 0⟩,
   ⟨"b", "J", "M", some 20, some 0⟩,
   ⟨"b", "K", "M", some 20, some 0⟩,
   ⟨"b", "L", "M", some 20, some 0⟩,
   ⟨"b", "M", "M", some 20, some 0⟩,
   ⟨"b", "N", "M", some 20, some 0⟩,
   ⟨"b", "O", "M", some 20, some 0⟩,
   ⟨"b", "P", "M", some 20, some 0⟩,
   ⟨"b", "Q", "M", some 20, some 0⟩]

/-- The per-IDH last-variation table of df17, spelled out. -/
def df17Ult : List GVar :=
  [⟨"b", "A", some ((20 - 10) / 10 * 100), none, none⟩,
   ⟨"b", "B", some ((20 - 10) / 10 * 100), none, none⟩,
   ⟨"b", "C", some ((20 - 10) / 10 * 100), none, none⟩,
   ⟨"b", "D", some ((20 - 10) / 10 * 100), none, none⟩,
   ⟨"b", "E", some ((20 - 10) / 10 * 100), none, none⟩,
   ⟨"b", "F", some ((20 - 10) / 10 * 100), none, none⟩,
   ⟨"b", "G", some ((20 - 10) / 10 * 100), none, none⟩,
   ⟨"b", "H", some ((20 - 10) / 10 * 100), none, none⟩,
   ⟨"b", "I", some ((20 - 10) / 10 * 100), none, none⟩,
   ⟨"b", "J", some ((20 - 10) / 10 * 100), none, none⟩,
   ⟨"b", "K", some ((20 - 10) / 10 * 100), none, none⟩,
   ⟨"b", "L", some ((20 - 10) / 10 * 100), none, none⟩,
   ⟨"b", "M", some ((20 - 10) / 10 * 100), none, none⟩,
   ⟨"b", "N", some ((20 - 10) / 10 * 100), none, none⟩,
   ⟨"b", "O", some ((20 - 10) / 10 * 100), none, none⟩,
   ⟨"b", "P", some ((20 - 10) / 10 * 100), none, none⟩,
   ⟨"b", "Q", some ((20 - 10) / 10 * 100), none, none⟩]

set_option maxRecDepth 100000 in
theorem ultVariaciones_df17 : ultVariaciones df17 = df17Ult := rfl

theorem df17_vals : (ultVariaciones df17).map (kpiVal Kpi.L14)
    = List.replicate 17 (some (100 : ℚ)) := by
  have hsym : (ultVariaciones df17).map (kpiVal Kpi.L14)
      = List.replicate 17 (some (((20 : ℚ) - 10) / 10 * 100)) := by
    rw [ultVariaciones_df17]
    rfl
  have h100 : ((20 : ℚ) - 10) / 10 * 100 = 100 := by norm_num
  rw [hsym, h100]

/-- Counterexample to C5 as stated: with the seventeen all-tied entities
of df17 the pandas sort permutation behind the gainer ranking is not
stable - its first five rows are the ult-table rows at positions 0, 9,
15, 14, 13 (position 15 ahead of position 14 despite equal values), so
the returned IDHs are A, J, P, O, N instead of the first five entities
A, B, C, D, E in original row order, violating the claimed tie-break. -/
theorem top_variaciones_stable_tie_cex :
    (ultVariaciones df17).map (·.grp)
      = ["A", "B", "C", "D", "E", "F", "G", "H", "I", "J", "K", "L", "M",
         "N", "O", "P", "Q"] ∧
    (ultVariaciones df17).map (kpiVal Kpi.L14)
      = List.replicate 17 (some (100 : ℚ)) ∧
    (nargsort ((ultVariaciones df17).map (kpiVal Kpi.L14)) false).take 5
      = [0, 9, 15, 14, 13] ∧
    ¬ ((nargsort ((ultVariaciones df17).map (kpiVal Kpi.L14)) false).take 5
        |>.Pairwise
          (fun i j =>
            descRelB ((ultVariaciones df17).map (kpiVal Kpi.L14)) i j = true))
    ∧
    (topVarUp df17 Kpi.L14 5).map (·.grp) = ["A", "J", "P", "O", "N"] := by
  refine ⟨?_, df17_vals, ?_, ?_, ?_⟩
  · rw [ultVariaciones_df17]
    rfl
  · rw [df17_vals]
    decide
  · rw [df17_vals]
    decide
  · unfold topVarUp
    rw [df17_vals]
    decide

/-- Two entities over two periods with distinct L14 variations, for the
ranking witness. -/
def dfW : List Rec :=
  [⟨"a", "A", "M", some 10, some 0⟩, ⟨"a", "B", "M", some 10, some 0⟩,
   ⟨"b", "A", "M", some 20, some 0⟩, ⟨"b", "B", "M", some 40, some 0⟩]

/-- Witness for C5 (amended) on dfW: at most five rows come back and, the
input having at most 16 non-missing metric values, the underlying
permutation is in the claimed stable descending order. -/
theorem top_variaciones_order_witness :
    (topVarUp dfW Kpi.L14 5).length ≤ 5 ∧
    ((nargsort ((ultVariaciones dfW).map (kpiVal Kpi.L14)) false).take 5
      |>.Pairwise
        (fun i j =>
          descRelB ((ultVariaciones dfW).map (kpiVal Kpi.L14)) i j = true)) :=
  ⟨(top_variaciones_order dfW Kpi.L14 5).1,
    ((top_variaciones_order dfW Kpi.L14 5).2.2.2.2.2.2 (by decide)).1⟩

theorem enumVals_nil_of_all_none (l : List Val) :
    ∀ k, (∀ x ∈ l, x = none) → enumVals k l = [] := by
  induction l with
  | nil => intro k _; rfl
  | cons a rest ih =>
    intro k h
    cases a with
    | none =>
      rw [enumVals]
      exact ih (k + 1) (fun x hx => h x (List.mem_cons_of_mem _ hx))
    | some q => exact absurd (h (some q) (List.mem_cons_self _ _)) (by simp)

theorem nanIdx_of_all_none (l : List Val) :
    ∀ k, (∀ x ∈ l, x = none) → nanIdxImpl k l = List.range' k l.length := by
  induction l with
  | nil => intro k _; rfl
  | cons a rest ih =>
    intro k h
    cases a with
    | none =>
      rw [nanIdxImpl, List.length_cons, List.range'_succ,
        ih (k + 1) (fun x hx => h x (List.mem_cons_of_mem _ hx))]
    | some q => exact absurd (h (some q) (List.mem_cons_self _ _)) (by simp)

theorem nargsort_all_none (vals : List Val) (asc : Bool)
    (h : ∀ x ∈ vals, x = none) :
    nargsort vals asc = List.range vals.length := by
  have he : enumVals 0 vals = [] := enumVals_nil_of_all_none vals 0 h
  have hn : nanIdxImpl 0 vals = List.range' 0 vals.length :=
    nanIdx_of_all_none vals 0 h
  cases asc <;>
    simp [nargsort, he, hn, npArgsort, isortL, ← List.range_eq_range']

theorem kpiVal_round2Row (k : Kpi) (r : GVar) :
    kpiVal k (round2Row r) = round2 (kpiVal k r) := by
  cases k <;> rfl

/-- C6 (amended): when no entity has a computed (non-null) variation for
the chosen metric - for example when every entity appears in only one
period - the ranking does not error and does not return an empty set: it
returns the per-entity rows themselves, in original order, up to n = 5 of
them, each carrying a null value in that metric. -/
theorem top_variaciones_all_null (df : List Rec) (k : Kpi)
    (h : ∀ x ∈ (ultVariaciones df).map (kpiVal k), x = none) :
    topVarUp df k 5
      = ((List.range (ultVariaciones df).length).take 5).map
          (fun i => round2Row ((ultVariaciones df).getD i default)) ∧
    (topVarUp df k 5).length = min 5 (ultVariaciones df).length ∧
    (∀ r ∈ topVarUp df k 5, kpiVal k r = none) := by
  have hn : nargsort ((ultVariaciones df).map (kpiVal k)) false
      = List.range (ultVariaciones df).length := by
    rw [nargsort_all_none _ _ h, List.length_map]
  refine ⟨?_, ?_, ?_⟩
  · unfold topVarUp
    rw [hn, ← List.map_take, List.map_map]
    rfl
  · unfold topVarUp
    rw [hn, List.length_map, List.length_take, List.length_map,
      List.length_range]
  · intro r hr
    unfold topVarUp at hr
    rw [hn] at hr
    obtain ⟨x, hx, rfl⟩ := List.mem_map.mp hr
    obtain ⟨i, hi, rfl⟩ := List.mem_map.mp (List.mem_of_mem_take hx)
    have hi' : i < (ultVariaciones df).length := List.mem_range.mp hi
    have hnone : kpiVal k ((ultVariaciones df).getD i default) = none := by
      refine h _ ?_
      rw [List.getD_eq_getElem _ _ hi']
      exact List.mem_map.mpr ⟨_, List.getElem_mem hi', rfl⟩
    rw [kpiVal_round2Row, hnone]
    rfl

/-- A single-period, single-entity table: its only variation row is
entirely null. -/
def dfC6single : List Rec := [⟨"p", "A", "M", some 10, some 5⟩]

/-- Counterexample to C6 as stated: on a table whose one entity appears in
a single period (so no entity has a computed variation) the gainer
ranking is not empty - it returns that entity's row with null variation
values. -/
theorem top_variaciones_not_empty_cex :
    topVarUp dfC6single Kpi.L14 5 ≠ [] ∧
    (topVarUp dfC6single Kpi.L14 5).length = 1 ∧
    ∀ r ∈ topVarUp dfC6single Kpi.L14 5,
      r.l14 = none ∧ r.vol = none ∧ r.costo = none := by
  refine ⟨by decide, by decide, by decide⟩

/-- Witness for C6 (amended) at dfC6single. -/
theorem top_variaciones_all_null_witness :
    (∀ r ∈ topVarUp dfC6single Kpi.L14 5, kpiVal Kpi.L14 r = none) ∧
    (topVarUp dfC6single Kpi.L14 5).length = 1 := by
  have h := top_variaciones_all_null dfC6single Kpi.L14 (by decide)
  refine ⟨h.2.2, ?_⟩
  rw [h.2.1]
  decide

-- Query responder: embedding of responder_pregunta ----------------------

/-- Python str.lower, ASCII range (the substrings the responder tests are
lowercase ASCII plus the literal accented characters, which pass through
unchanged; only an upper-case accented question letter would diverge). -/
def pyLower (s : String) : String := ⟨s.data.map Char.toLower⟩

/-- Does the pattern list lead the text list (character-wise). -/
def leadMatch : List Char → List Char → Bool
  | [], _ => true
  | _ :: _, [] => false
  | a :: as, b :: bs => a == b && leadMatch as bs

/-- Does the pattern occur anywhere in the text (Python "t in s"). -/
def occursIn : List Char → List Char → Bool
  | t, [] => leadMatch t []
  | t, s@(_ :: rest) => leadMatch t s || occursIn t rest

/-- Python substring containment "t in s". -/
def hasSub (s t : String) : Bool := occursIn t.data s.data

/-- Rule 1 of the core responder: ("top" in q or "top 5" in q) and
("idh" in q or "material" in q). -/
def b1 (q : String) : Bool :=
  (hasSub q "top" || hasSub q "top 5") && (hasSub q "idh" || hasSub q "material")

/-- Rule 2: "costo unitario" in q and ("ultimo" in q or "último" in q). -/
def b2 (q : String) : Bool :=
  hasSub q "costo unitario" && (hasSub q "ultimo" || hasSub q "último")

/-- Rule 3: "variacion" in q and "l14" in q. -/
def b3 (q : String) : Bool :=
  hasSub q "variacion" && hasSub q "l14"

/-- Rule 4: "marca" in q and "peor" in q. -/
def b4 (q : String) : Bool :=
  hasSub q "marca" && hasSub q "peor"

/-- Digit grouping: insert a comma after every third digit of a reversed
digit list. -/
def commaRev : Nat → List Char → List Char
  | _, [] => []
  | k, c :: cs =>
    if k = 3 then ',' :: c :: commaRev 1 cs else c :: commaRev (k + 1) cs

/-- Python format f"\x7bx:,.2f\x7d" on a possibly missing value: thousands
separators and two decimals, NaN printed as "nan"; the value is rounded
half to even at two decimals (sign carried separately). -/
def fmtComma2 : Val → String
  | none => "nan"
  | some q =>
    (if q < 0 then "-" else "")
      ++ ⟨(commaRev 0 (Nat.repr ((roundHalfEven (|q| * 100)).toNat / 100)).data.reverse).reverse⟩
      ++ "."
      ++ (if (roundHalfEven (|q| * 100)).toNat % 100 < 10
          then "0" ++ Nat.repr ((roundHalfEven (|q| * 100)).toNat % 100)
          else Nat.repr ((roundHalfEven (|q| * 100)).toNat % 100))

/-- One-line-per-row rendering of a variation table (the responder only
ever returns its to_string text; the exact pandas layout is abstracted to
a deterministic row listing). -/
def renderGVarRows (l : List GVar) : String :=
  String.intercalate "\n"
    (l.map (fun r => r.periodo ++ " " ++ r.grp ++ " " ++ fmtComma2 r.l14
      ++ " " ++ fmtComma2 r.vol ++ " " ++ fmtComma2 r.costo))

/-- One-line-per-row rendering of a grouped totals table. -/
def renderGRowRows (l : List GRow) : String :=
  String.intercalate "\n"
    (l.map (fun r => r.periodo ++ " " ++ r.grp ++ " "
      ++ fmtComma2 (some r.l14) ++ " " ++ fmtComma2 (some r.vol) ++ " "
      ++ fmtComma2 r.costo))

/-- The core responder's fixed fallback help message. -/
def helpMsg : String :=
  "No entendí la pregunta. Prueba: \x27Top idh\x27, \x27costo unitario ultimo\x27, \x27variacion l14\x27."

/-- Embedding of responder_pregunta (analisis_proyecto.py).  A pandas
operation that raises is modelled as Except.error carrying the exception
name: rules 2 and 3 index iloc[-1] with no emptiness guard, and rule 4
reads totales.index[-1] before its try block, so all three raise
IndexError on an empty table; only rule 4's group lookup is guarded (its
try/except returns a message when the last period has no brand rows). -/
def responder_pregunta (df : List Rec) (totales : List TRow)
    (variaciones : List VRow) (pregunta : String) : Except String String :=
  if b1 (pyLower pregunta) then
    .ok ("Top IDH (Costo Unitario) - Subidas:\n"
      ++ renderGVarRows (topVarUp df Kpi.COSTO 5)
      ++ "\n\nTop IDH (Costo Unitario) - Bajadas:\n"
      ++ renderGVarRows (topVarDown df Kpi.COSTO 5))
  else if b2 (pyLower pregunta) then
    match totales.getLast? with
    | none => .error "IndexError"
    | some t =>
      .ok ("Costo unitario último periodo (" ++ t.periodo ++ "): "
        ++ fmtComma2 t.costo)
  else if b3 (pyLower pregunta) then
    match variaciones.getLast? with
    | none => .error "IndexError"
    | some r => .ok ("Variación % última de L14: " ++ fmtComma2 r.l14 ++ "%")
  else if b4 (pyLower pregunta) then
    match totales.getLast? with
    | none => .error "IndexError"
    | some t =>
      match (totales_por_marca df).filter (fun g => g.periodo = t.periodo) with
      | [] => .ok "No se pudo calcular top por marca para el último periodo."
      | dfLast =>
        .ok ("Top marcas por L14 (último periodo):\n"
          ++ renderGRowRows
            (((nargsort (dfLast.map (fun g => some g.l14)) false).map
              (fun i => dfLast.getD i default)).take 5))
  else .ok helpMsg

instance : DecidableEq (Except String String) := fun x y =>
  match x, y with
  | .ok a, .ok b =>
    if h : a = b then isTrue (congrArg Except.ok h)
    else isFalse (fun he => h (Except.ok.inj he))
  | .error a, .error b =>
    if h : a = b then isTrue (congrArg Except.error h)
    else isFalse (fun he => h (Except.error.inj he))
  | .ok _, .error _ => isFalse (fun he => Except.noConfusion he)
  | .error _, .ok _ => isFalse (fun he => Except.noConfusion he)

/-- C7 (amended): the core responder's branches do not all guard their
indexing.  Branch by branch: the top-IDH branch always answers with text;
the costo-unitario and variación branches raise IndexError on an empty
totals / variations table and answer with text otherwise; the brand
branch raises IndexError on an empty totals table (its index[-1] read
sits before the try block) and otherwise answers with text (its group
lookup is guarded); unrecognized questions always get the fixed help
message, never an exception. -/
theorem responder_branch_behaviour (df : List Rec) (tot : List TRow)
    (va : List VRow) (pregunta : String) :
    (b1 (pyLower pregunta) = true →
      ∃ s, responder_pregunta df tot va pregunta = .ok s) ∧
    (b1 (pyLower pregunta) = false → b2 (pyLower pregunta) = true →
      (tot = [] →
        responder_pregunta df tot va pregunta = .error "IndexError") ∧
      (tot ≠ [] → ∃ s, responder_pregunta df tot va pregunta = .ok s)) ∧
    (b1 (pyLower pregunta) = false → b2 (pyLower pregunta) = false →
      b3 (pyLower pregunta) = true →
      (va = [] →
        responder_pregunta df tot va pregunta = .error "IndexError") ∧
      (va ≠ [] → ∃ s, responder_pregunta df tot va pregunta = .ok s)) ∧
    (b1 (pyLower pregunta) = false → b2 (pyLower pregunta) = false →
      b3 (pyLower pregunta) = false → b4 (pyLower pregunta) = true →
      (tot = [] →
        responder_pregunta df tot va pregunta = .error "IndexError") ∧
      (tot ≠ [] → ∃ s, responder_pregunta df tot va pregunta = .ok s)) ∧
    (b1 (pyLower pregunta) = false → b2 (pyLower pregunta) = false →
      b3 (pyLower pregunta) = false → b4 (pyLower pregunta) = false →
      responder_pregunta df tot va pregunta = .ok helpMsg) := by
  refine ⟨?_, ?_, ?_, ?_, ?_⟩
  · intro h1
    have h : responder_pregunta df tot va pregunta
        = .ok ("Top IDH (Costo Unitario) - Subidas:\n"
          ++ renderGVarRows (topVarUp df Kpi.COSTO 5)
          ++ "\n\nTop IDH (Costo Unitario) - Bajadas:\n"
          ++ renderGVarRows (topVarDown df Kpi.COSTO 5)) := by
      simp [responder_pregunta, h1]
    exact ⟨_, h⟩
  · intro h1 h2
    constructor
    · intro htot
      subst htot
      simp [responder_pregunta, h1, h2]
    · intro htot
      cases hl : tot.getLast? with
      | none => exact absurd (List.getLast?_eq_none_iff.mp hl) htot
      | some t =>
        have h : responder_pregunta df tot va pregunta
            = .ok ("Costo unitario último periodo (" ++ t.periodo ++ "): "
              ++ fmtComma2 t.costo) := by
          simp [responder_pregunta, h1, h2, hl]
        exact ⟨_, h⟩
  · intro h1 h2 h3
    constructor
    · intro hva
      subst hva
      simp [responder_pregunta, h1, h2, h3]
    · intro hva
      cases hl : va.getLast? with
      | none => exact absurd (List.getLast?_eq_none_iff.mp hl) hva
      | some r =>
        have h : responder_pregunta df tot va pregunta
            = .ok ("Variación % última de L14: " ++ fmtComma2 r.l14 ++ "%")
            := by
          simp [responder_pregunta, h1, h2, h3, hl]
        exact ⟨_, h⟩
  · intro h1 h2 h3 h4
    constructor
    · intro htot
      subst htot
      simp [responder_pregunta, h1, h2, h3, h4]
    · intro htot
      cases hl : tot.getLast? with
      | none => exact absurd (List.getLast?_eq_none_iff.mp hl) htot
      | some t =>
        cases hf : (totales_por_marca df).filter
            (fun g => g.periodo = t.periodo) with
        | nil =>
          have h : responder_pregunta df tot va pregunta
              = .ok "No se pudo calcular top por marca para el último periodo."
              := by
            simp [responder_pregunta, h1, h2, h3, h4, hl, hf]
          exact ⟨_, h⟩
        | cons g gs =>
          have h : responder_pregunta df tot va pregunta
              = .ok ("Top marcas por L14 (último periodo):\n"
                ++ renderGRowRows
                  (((nargsort ((g :: gs).map (fun x => some x.l14)) false).map
                    (fun i => (g :: gs).getD i default)).take 5)) := by
            simp [responder_pregunta, h1, h2, h3, h4, hl, hf]
          exact ⟨_, h⟩
  · intro h1 h2 h3 h4
    simp [responder_pregunta, h1, h2, h3, h4]

/-- Counterexample to C7 as stated: the well-formed question "costo
unitario ultimo" on an empty totals table makes the responder raise
(IndexError from iloc[-1]) instead of returning a descriptive message:
the branch indexes the series without checking it is non-empty. -/
theorem responder_unguarded_cex :
    b2 (pyLower "costo unitario ultimo") = true ∧
    responder_pregunta [] [] [] "costo unitario ultimo"
      = .error "IndexError" := by
  exact ⟨by decide, by decide⟩

/-- Witness for C7 (amended): an unrecognized question gets the fixed
help message on any inputs, and the variación branch raises on an empty
variations table. -/
theorem responder_branch_behaviour_witness :
    responder_pregunta [] totEx [] "clima de hoy" = .ok helpMsg ∧
    responder_pregunta [] [] [] "variacion l14" = .error "IndexError" :=
  ⟨(responder_branch_behaviour [] totEx [] "clima de hoy").2.2.2.2
      (by decide) (by decide) (by decide) (by decide),
   ((responder_branch_behaviour [] [] [] "variacion l14").2.2.1
      (by decide) (by decide) (by decide)).1 rfl⟩

/-- C8 (amended): the costo-unitario branch answers only when the
question contains the contiguous phrase "costo unitario" together with
"ultimo" or "último" (not merely the two words "costo" and "unitario"),
does not match the top-IDH rule, and the totals table is non-empty; it
then returns the latest period's cost ratio formatted with thousands
separators and two decimals. -/
theorem responder_costo_unitario (df : List Rec) (tot : List TRow)
    (va : List VRow) (pregunta : String) (t : TRow)
    (h1 : b1 (pyLower pregunta) = false)
    (h2 : b2 (pyLower pregunta) = true)
    (ht : tot.getLast? = some t) :
    responder_pregunta df tot va pregunta
      = .ok ("Costo unitario último periodo (" ++ t.periodo ++ "): "
          ++ fmtComma2 t.costo) := by
  simp [responder_pregunta, h1, h2, ht]

/-- Totals table for the C8 witness: the latest (only) period has a cost
ratio of 1235, formatted as 1,235.00. -/
def totC8 : List TRow := [⟨"2024-01", 12350, 10, some 1235⟩]

/-- Witness for C8 (amended): formatted answer with thousands separator
and two decimals. -/
theorem responder_costo_unitario_witness :
    responder_pregunta [] totC8 [] "costo unitario ultimo"
      = .ok "Costo unitario último periodo (2024-01): 1,235.00" := by
  have h := responder_costo_unitario [] totC8 [] "costo unitario ultimo"
    ⟨"2024-01", 12350, 10, some 1235⟩ (by decide) (by decide) rfl
  rw [h]
  have h1 : roundHalfEven (|(1235 : ℚ)| * 100) = 123500 := by
    norm_num [roundHalfEven]
  show Except.ok ("Costo unitario último periodo (2024-01): "
      ++ fmtComma2 (some 1235)) = _
  rw [show fmtComma2 (some (1235 : ℚ))
      = (if (1235 : ℚ) < 0 then "-" else "")
        ++ ⟨(commaRev 0 (Nat.repr ((roundHalfEven (|(1235 : ℚ)| * 100)).toNat
              / 100)).data.reverse).reverse⟩
        ++ "."
        ++ (if (roundHalfEven (|(1235 : ℚ)| * 100)).toNat % 100 < 10
            then "0" ++ Nat.repr ((roundHalfEven (|(1235 : ℚ)| * 100)).toNat
              % 100)
            else Nat.repr ((roundHalfEven (|(1235 : ℚ)| * 100)).toNat % 100))
      from rfl]
  rw [h1]
  decide

/-- Counterexample to C8 as stated: "costo unitario" contains "costo" and
"unitario" and does not match the top-IDH rule, yet the responder returns
the fallback help message, because the branch additionally requires
"ultimo"/"último". -/
theorem responder_costo_unitario_cex :
    hasSub (pyLower "costo unitario") "costo" = true ∧
    hasSub (pyLower "costo unitario") "unitario" = true ∧
    b1 (pyLower "costo unitario") = false ∧
    responder_pregunta [] totC8 [] "costo unitario" = .ok helpMsg := by
  exact ⟨by decide, by decide, by decide, by decide⟩

/-- C9: the core responder has no volume rule at all: a question
containing "volumen" that matches no higher-priority rule falls through
to the fixed help message instead of answering with the period's VOL
total.  (A volume branch exists only in the shadowing responder pasted
into app.py, which is unreachable: that nested definition is mis-indented
- a syntax error - and its answer would in any case read iloc[0], the
first period.) -/
theorem responder_volumen_fallback :
    hasSub (pyLower "volumen del mes") "volumen" = true ∧
    hasSub (pyLower "volumen del mes") "vol" = true ∧
    b1 (pyLower "volumen del mes") = false ∧
    b2 (pyLower "volumen del mes") = false ∧
    b3 (pyLower "volumen del mes") = false ∧
    b4 (pyLower "volumen del mes") = false ∧
    responder_pregunta [] totEx [] "volumen del mes" = .ok helpMsg := by
  exact ⟨by decide, by decide, by decide, by decide, by decide, by decide,
    by decide⟩
